import Mathlib

/-!
Verification of the speech-sentiment-pipeline repository.

The repository's sources contain the frontend (TypeScript types in
`src/frontend/src/types/index.ts`, upload component
`src/frontend/src/components/AudioUploader.tsx`, API client) and a README;
the backend pipeline orchestrator itself (FastAPI services under
`backend/app/services/`) is not among the given sources.  The data shapes
below are translated from `types/index.ts`; the orchestrator, stage
contracts, stage-result store and analysis reader are modelled from the
spec (sections 3–5, 7), as marked on each definition.
-/

namespace SpeechPipeline

/-- Status enum of an audio record, from `AudioFile.status` in
`src/frontend/src/types/index.ts`:
`'pending' | 'processing' | 'completed' | 'failed'`. -/
inductive AudioStatus
  | pending
  | processing
  | completed
  | failed
deriving DecidableEq, Repr

/-- One uploaded audio file and its lifecycle, from `AudioFile` in
`src/frontend/src/types/index.ts`.  Timestamps are modelled as `Nat`,
durations as `ℚ`. -/
structure AudioRecord where
  id : Nat
  filename : String
  original_filename : String
  file_size_bytes : Nat
  duration_seconds : Option ℚ
  status : AudioStatus
  created_at : Nat
  processed_at : Option Nat
  error_message : Option String
deriving DecidableEq, Repr

/-- From `WordTimestamp` in `src/frontend/src/types/index.ts`. -/
structure WordTimestamp where
  word : String
  start : ℚ
  «end» : ℚ
  confidence : ℚ
deriving DecidableEq, Repr

/-- From `TranscriptSegment` in `src/frontend/src/types/index.ts`. -/
structure TranscriptSegment where
  id : Nat
  text : String
  start : ℚ
  «end» : ℚ
  words : Option (List WordTimestamp)
deriving DecidableEq, Repr

/-- Transcript payload, from `Transcript` in
`src/frontend/src/types/index.ts` (payload fields only; the row-bookkeeping
fields `id`, `audio_file_id`, `created_at` live on the stage-result row). -/
structure Transcript where
  full_text : String
  language : Option String
  segments : Option (List TranscriptSegment)
  word_count : Option Nat
  processing_time_seconds : Option ℚ
deriving DecidableEq, Repr

/-- From `SentimentScores` in `src/frontend/src/types/index.ts`. -/
structure SentimentScores where
  positive : ℚ
  negative : ℚ
  neutral : ℚ
deriving DecidableEq, Repr

/-- The three-way sentiment label used by `Sentiment.overall_sentiment`
and `SegmentSentiment.sentiment` in `src/frontend/src/types/index.ts`. -/
inductive SentimentLabel
  | positive
  | negative
  | neutral
deriving DecidableEq, Repr

/-- From `SegmentSentiment` in `src/frontend/src/types/index.ts`. -/
structure SegmentSentiment where
  text : String
  sentiment : SentimentLabel
  confidence : ℚ
  start : Option ℚ
  «end» : Option ℚ
deriving DecidableEq, Repr

/-- Sentiment payload, from `Sentiment` in
`src/frontend/src/types/index.ts`. -/
structure Sentiment where
  overall_sentiment : SentimentLabel
  confidence : ℚ
  scores : SentimentScores
  segment_sentiments : Option (List SegmentSentiment)
deriving DecidableEq, Repr

/-- From `Entity` in `src/frontend/src/types/index.ts`. -/
structure Entity where
  text : String
  label : String
  start_char : Option Nat
  end_char : Option Nat
  confidence : Option ℚ
deriving DecidableEq, Repr

/-- Entities payload, from `Entities` in `src/frontend/src/types/index.ts`;
the `Record<string, number>` map `entity_counts` is modelled as an
association list keyed by label. -/
structure Entities where
  entities : List Entity
  entity_counts : List (String × Nat)
deriving DecidableEq, Repr

/-- Summary payload, from `Summary` in `src/frontend/src/types/index.ts`. -/
structure Summary where
  summary : String
  key_phrases : List String
  action_items : Option (List String)
  topics : Option (List String)
deriving DecidableEq, Repr

/-- From `FullAnalysis` in `src/frontend/src/types/index.ts`: the composite
view returned by the analysis reader, each stage field independently
nullable. -/
structure FullAnalysis where
  audio : AudioRecord
  transcript : Option Transcript
  sentiment : Option Sentiment
  entities : Option Entities
  summary : Option Summary
  processing_complete : Bool
deriving DecidableEq, Repr

/-- Modelled from the spec: `stage_kind` enum of a StageResult (§3),
`{transcription, sentiment, entity, summary}`; the backend models are not
among the given sources. -/
inductive StageKind
  | transcription
  | sentiment
  | entity
  | summary
deriving DecidableEq, Repr

/-- Modelled from the spec: StageResult `status` enum `{succeeded, failed}`
(§3). -/
inductive StageStatus
  | succeeded
  | failed
deriving DecidableEq, Repr

/-- Modelled from the spec: the stage-specific structured output carried by
a StageResult (§3), a tagged variant over the four payload types. -/
inductive StagePayload
  | transcript (t : Transcript)
  | sentiment (s : Sentiment)
  | entities (e : Entities)
  | summary (s : Summary)
deriving DecidableEq, Repr

/-- Modelled from the spec: one StageResult row (§3) — one per
(audio record, stage) pair, with payload on success and error detail on
failure. -/
structure StageResult where
  audio_id : Nat
  stage_kind : StageKind
  status : StageStatus
  payload : Option StagePayload
  error_detail : Option String
  created_at : Nat
deriving DecidableEq, Repr

/-- Modelled from the spec: the two logical tables of the persisted state
(§6): AudioRecord rows and StageResult rows. -/
structure DB where
  records : List AudioRecord
  results : List StageResult
deriving DecidableEq, Repr

/-- Modelled from the spec: point lookup of an AudioRecord by id. -/
def getRecord (db : DB) (audio_id : Nat) : Option AudioRecord :=
  db.records.find? (fun a => a.id = audio_id)

/-- Modelled from the spec: `StageResultStore.Get(audio_id, stage_kind)`
(§4.3). -/
def getStage (db : DB) (audio_id : Nat) (k : StageKind) : Option StageResult :=
  db.results.find? (fun r => r.audio_id = audio_id ∧ r.stage_kind = k)

/-- Modelled from the spec: `StageResultStore.Upsert` (§4.3) — overwrites
any prior result for the same (audio_id, stage_kind) key. -/
def upsertStage (db : DB) (r : StageResult) : DB :=
  { db with
    results :=
      r :: db.results.filter
        (fun x => ¬(x.audio_id = r.audio_id ∧ x.stage_kind = r.stage_kind)) }

/-- Modelled from the spec: the error taxonomy of a stage invocation
(§7): `DecodeError`, `ModelError`, `TimeoutError`. -/
inductive StageError
  | decodeError (msg : String)
  | modelError (msg : String)
  | timeoutError (msg : String)
deriving DecidableEq, Repr

/-- The human-readable detail carried by a stage error. -/
def StageError.message : StageError → String
  | .decodeError m => m
  | .modelError m => m
  | .timeoutError m => m

/-- Modelled from the spec: the four injected stage capabilities behind the
uniform `Execute` contract (§4.2, §9) — each a pure function of its
declared inputs, producing output or a stage error. -/
structure Stages where
  transcription : AudioRecord → Except StageError Transcript
  sentiment : String → List TranscriptSegment → Except StageError Sentiment
  entity : String → Except StageError Entities
  summary : String → List TranscriptSegment → Except StageError Summary

/-- Modelled from the spec: one write performed by the orchestrator during
a run — either a StageResult upsert or an AudioRecord mutation of the
status / error_message / processed_at fields (§4.1, §5). -/
inductive WriteEvent
  | stageWrite (r : StageResult)
  | recordWrite (audio_id : Nat) (status : AudioStatus)
      (error_message : Option String) (processed_at : Option Nat)
deriving DecidableEq, Repr

/-- Apply one orchestrator write to the persisted state. -/
def applyEvent (db : DB) : WriteEvent → DB
  | .stageWrite r => upsertStage db r
  | .recordWrite audio_id st em pa =>
      { db with
        records := db.records.map (fun a =>
          if a.id = audio_id then
            { a with status := st, error_message := em, processed_at := pa }
          else a) }

/-- Apply a sequence of orchestrator writes in order. -/
def applyEvents (db : DB) (es : List WriteEvent) : DB :=
  es.foldl applyEvent db

/-- Stage display name used in the aggregated error message. -/
def StageKind.name : StageKind → String
  | .transcription => "transcription"
  | .sentiment => "sentiment"
  | .entity => "entity"
  | .summary => "summary"

/-- Modelled from the spec: the StageResult row recorded for one
downstream stage, succeeded with payload or failed with error detail
(§4.1 step 4). -/
def downstreamRow (audio_id : Nat) (now : Nat) (k : StageKind)
    (mk : α → StagePayload) (r : Except StageError α) : StageResult :=
  match r with
  | .ok v => ⟨audio_id, k, .succeeded, some (mk v), none, now⟩
  | .error e => ⟨audio_id, k, .failed, none, some e.message, now⟩

/-- Modelled from the spec: the `"<stage>: <detail>"` unit a failed stage
contributes to the aggregated error message (§4.1 step 5), `none` on
success. -/
def stagePart (k : StageKind) : Except StageError α → Option String
  | .ok _ => none
  | .error e => some (k.name ++ ": " ++ e.message)

/-- Modelled from the spec: the failure parts of the three downstream
stages on transcript `t`, in sentiment, entity, summary order (§4.1
step 5). -/
def failureParts (stages : Stages) (t : Transcript) : List String :=
  let segs := t.segments.getD []
  [stagePart .sentiment (stages.sentiment t.full_text segs),
   stagePart .entity (stages.entity t.full_text),
   stagePart .summary (stages.summary t.full_text segs)].reduceOption

/-- Modelled from the spec: the write sequence of one orchestrator run on
the record `a` (§4.1 algorithm):
1. status pending→processing, persisted;
2. transcription; on failure record StageResult(transcription, failed),
   set status=failed with error_message from this stage, stop;
3. on success persist StageResult(transcription, succeeded) and invoke
   Sentiment, Entity, Summary on the transcript text and segments;
4. persist each of the three StageResults regardless of outcome;
5. terminal status last: completed if all succeeded, else failed with the
   failed stages' parts joined by "; "; processed_at set in both cases. -/
def runEvents (stages : Stages) (now : Nat) (a : AudioRecord) :
    List WriteEvent :=
  let processing := WriteEvent.recordWrite a.id .processing none none
  match stages.transcription a with
  | .error e =>
      [processing,
       .stageWrite ⟨a.id, .transcription, .failed, none, some e.message, now⟩,
       .recordWrite a.id .failed
         (some ("transcription: " ++ e.message)) (some now)]
  | .ok t =>
      let segs := t.segments.getD []
      let srow := downstreamRow a.id now .sentiment StagePayload.sentiment
        (stages.sentiment t.full_text segs)
      let erow := downstreamRow a.id now .entity StagePayload.entities
        (stages.entity t.full_text)
      let surow := downstreamRow a.id now .summary StagePayload.summary
        (stages.summary t.full_text segs)
      let parts := failureParts stages t
      let terminal :=
        if parts = [] then WriteEvent.recordWrite a.id .completed none (some now)
        else WriteEvent.recordWrite a.id .failed
          (some (String.intercalate "; " parts)) (some now)
      [processing,
       .stageWrite ⟨a.id, .transcription, .succeeded,
         some (.transcript t), none, now⟩,
       .stageWrite srow, .stageWrite erow, .stageWrite surow,
       terminal]

/-- Modelled from the spec: the reader error taxonomy visible to callers
(§7): only structural errors propagate. -/
inductive ReaderError
  | notFoundError
deriving DecidableEq, Repr

/-- Modelled from the spec: `PipelineOrchestrator.Run(audio_id)` (§4.1) —
looks up the record, emits the run's writes in order and applies them;
fails with `NotFoundError` when the record does not exist. -/
def Run (stages : Stages) (now : Nat) (db : DB) (audio_id : Nat) :
    Except ReaderError DB :=
  match getRecord db audio_id with
  | none => .error .notFoundError
  | some a => .ok (applyEvents db (runEvents stages now a))

/-- Payload of the transcription StageResult, when present and succeeded. -/
def stageTranscript (db : DB) (audio_id : Nat) : Option Transcript :=
  match getStage db audio_id .transcription with
  | some ⟨_, _, .succeeded, some (.transcript t), _, _⟩ => some t
  | _ => none

/-- Payload of the sentiment StageResult, when present and succeeded. -/
def stageSentiment (db : DB) (audio_id : Nat) : Option Sentiment :=
  match getStage db audio_id .sentiment with
  | some ⟨_, _, .succeeded, some (.sentiment s), _, _⟩ => some s
  | _ => none

/-- Payload of the entity StageResult, when present and succeeded. -/
def stageEntities (db : DB) (audio_id : Nat) : Option Entities :=
  match getStage db audio_id .entity with
  | some ⟨_, _, .succeeded, some (.entities e), _, _⟩ => some e
  | _ => none

/-- Payload of the summary StageResult, when present and succeeded. -/
def stageSummary (db : DB) (audio_id : Nat) : Option Summary :=
  match getStage db audio_id .summary with
  | some ⟨_, _, .succeeded, some (.summary s), _, _⟩ => some s
  | _ => none

/-- Modelled from the spec: `AnalysisReader.GetFullAnalysis(audio_id)`
(§4.4) — returns the AudioRecord plus whatever StageResults exist, each
field nullable independently; `processing_complete` iff status=completed;
fails with `NotFoundError` only if the AudioRecord does not exist. -/
def GetFullAnalysis (db : DB) (audio_id : Nat) :
    Except ReaderError FullAnalysis :=
  match getRecord db audio_id with
  | none => .error .notFoundError
  | some a =>
      .ok { audio := a
            transcript := stageTranscript db audio_id
            sentiment := stageSentiment db audio_id
            entities := stageEntities db audio_id
            summary := stageSummary db audio_id
            processing_complete := a.status = .completed }

/-- Modelled from the spec: the neutral Sentiment payload returned for
empty input text (§4.2: "neutral with confidence 0"). -/
def neutralSentiment : Sentiment :=
  { overall_sentiment := .neutral
    confidence := 0
    scores := { positive := 0, negative := 0, neutral := 1 }
    segment_sentiments := none }

/-- Modelled from the spec: `Sentiment.Execute(text, segments)` (§4.2),
wrapping an injected model call; empty text returns neutral with
confidence 0 rather than failing. -/
def sentimentExecute
    (model : String → List TranscriptSegment → Except StageError Sentiment)
    (text : String) (segments : List TranscriptSegment) :
    Except StageError Sentiment :=
  if text = "" then .ok neutralSentiment else model text segments

/-- Add one occurrence of label `l` to a label→count association list,
keeping first-occurrence key order. -/
def bumpLabel : List (String × Nat) → String → List (String × Nat)
  | [], l => [(l, 1)]
  | (k, n) :: rest, l =>
      if k = l then (k, n + 1) :: rest else (k, n) :: bumpLabel rest l

/-- Modelled from the spec: the derived label→count mapping of an Entities
payload (§3: "derived, must equal the actual tally over the entity
sequence"). -/
def countLabels (es : List Entity) : List (String × Nat) :=
  es.foldl (fun m e => bumpLabel m e.label) []

/-- Count recorded for label `l` in a label→count association list
(0 when absent). -/
def lookupCount (m : List (String × Nat)) (l : String) : Nat :=
  match m.find? (fun p => p.1 = l) with
  | some p => p.2
  | none => 0

/-- Build an Entities payload from an entity list, deriving the counts. -/
def mkEntities (es : List Entity) : Entities :=
  { entities := es, entity_counts := countLabels es }

/-- Modelled from the spec: `Entity.Execute(text)` (§4.2), wrapping an
injected model producing the entity sequence; the count map is derived;
empty text yields an empty entity list and empty count map. -/
def entityExecute (model : String → Except StageError (List Entity))
    (text : String) : Except StageError Entities :=
  if text = "" then .ok (mkEntities []) else (model text).map mkEntities

/-- Modelled from the spec: `Summary.Execute(text, segments)` (§4.2),
wrapping an injected model; text shorter than the minimum-length threshold
returns the text itself as the summary with empty key phrases. -/
def summaryExecute (minLen : Nat)
    (model : String → List TranscriptSegment → Except StageError Summary)
    (text : String) (segments : List TranscriptSegment) :
    Except StageError Summary :=
  if text.length < minLen then
    .ok { summary := text, key_phrases := [], action_items := none,
          topics := none }
  else model text segments

/-- Modelled from the spec: the four stage capabilities assembled from
injected model backends behind the uniform Execute wrappers (§4.2, §9). -/
def mkStages (tModel : AudioRecord → Except StageError Transcript)
    (sModel : String → List TranscriptSegment → Except StageError Sentiment)
    (eModel : String → Except StageError (List Entity)) (minLen : Nat)
    (suModel : String → List TranscriptSegment → Except StageError Summary) :
    Stages :=
  { transcription := tModel
    sentiment := sentimentExecute sModel
    entity := entityExecute eModel
    summary := summaryExecute minLen suModel }

/-- Modelled from the spec: AudioRecord creation on upload (§3 lifecycle:
created with status=pending, processed_at and error_message null). -/
def createAudioRecord (id : Nat) (filename original_filename : String)
    (size_bytes : Nat) (now : Nat) : AudioRecord :=
  { id := id
    filename := filename
    original_filename := original_filename
    file_size_bytes := size_bytes
    duration_seconds := none
    status := .pending
    created_at := now
    processed_at := none
    error_message := none }

/-- JavaScript `String.prototype.split` with a one-character separator,
on the character list of the string: always returns at least one piece,
`"".split('.')` gives `[""]`, and separators at the ends give empty
pieces. -/
def splitOnChar (sep : Char) : List Char → List (List Char)
  | [] => [[]]
  | c :: cs =>
      match splitOnChar sep cs with
      | [] => if c = sep then [[], []] else [[c]]
      | r :: rs => if c = sep then [] :: r :: rs else (c :: r) :: rs

/-- The uploader's allowed extensions, from `handleFile` in
`src/frontend/src/components/AudioUploader.tsx`:
`['mp3', 'wav', 'm4a', 'flac', 'ogg']`. -/
def audioExtensions : List (List Char) :=
  ["mp3".data, "wav".data, "m4a".data, "flac".data, "ogg".data]

/-- `file.name.split('.').pop()?.toLowerCase()` with the `|| ''` fallback
applied at the membership test, from `handleFile` in
`src/frontend/src/components/AudioUploader.tsx`. -/
def fileExtension (name : String) : List Char :=
  (((splitOnChar '.' name.data).getLast?).map
    (fun p => p.map Char.toLower)).getD []

/-- Observable outcome of the uploader's `handleFile`: either it sets the
error message and returns, or it proceeds to `uploadAudio`/`processAudio`. -/
inductive UploadAction
  | rejected (errorMessage : String)
  | upload
deriving DecidableEq, Repr

/-- The extension gate of `handleFile` in
`src/frontend/src/components/AudioUploader.tsx`: if the lowercased final
extension is not among the allowed audio extensions, set the error message
and return before any network call; otherwise proceed to upload. -/
def handleFile (filename : String) : UploadAction :=
  if ¬ (audioExtensions.contains (fileExtension filename)) then
    .rejected "Please upload an audio file (MP3, WAV, M4A, FLAC, OGG)"
  else .upload

/-- Modelled from the spec: the reader operation as a state-passing query —
it returns the composite view and the stored state it leaves behind; all
mutation goes through the orchestrator, never from readers (§5), so the
state is returned unchanged. -/
def GetFullAnalysisOp (db : DB) (audio_id : Nat) :
    Except ReaderError FullAnalysis × DB :=
  (GetFullAnalysis db audio_id, db)

/-! ### Store lemmas -/

theorem applyEvents_nil (db : DB) : applyEvents db [] = db := rfl

theorem applyEvents_cons (db : DB) (e : WriteEvent) (es : List WriteEvent) :
    applyEvents db (e :: es) = applyEvents (applyEvent db e) es := rfl

theorem getRecord_stageWrite (db : DB) (r : StageResult) (i : Nat) :
    getRecord (applyEvent db (.stageWrite r)) i = getRecord db i := rfl

theorem getStage_recordWrite (db : DB) (j : Nat) (st : AudioStatus)
    (em : Option String) (pa : Option Nat) (i : Nat) (k : StageKind) :
    getStage (applyEvent db (.recordWrite j st em pa)) i k = getStage db i k :=
  rfl

theorem find?_map_id (f : AudioRecord → AudioRecord)
    (hf : ∀ a, (f a).id = a.id) (l : List AudioRecord) (i : Nat) :
    (l.map f).find? (fun a => a.id = i)
      = (l.find? (fun a => a.id = i)).map f := by
  induction l with
  | nil => rfl
  | cons a l ih =>
    simp only [List.map_cons, List.find?, hf]
    by_cases h : a.id = i
    · simp [h]
    · simp only [h, decide_False]
      exact ih

theorem getRecord_recordWrite (db : DB) (j : Nat) (st : AudioStatus)
    (em : Option String) (pa : Option Nat) (i : Nat) :
    getRecord (applyEvent db (.recordWrite j st em pa)) i
      = (getRecord db i).map (fun a =>
          if a.id = j then
            { a with status := st, error_message := em, processed_at := pa }
          else a) := by
  unfold getRecord applyEvent
  exact find?_map_id _ (fun a => by split <;> rfl) db.records i

theorem find?_filter_imp {α} (p q : α → Bool)
    (h : ∀ x, q x = true → p x = true) (l : List α) :
    (l.filter p).find? q = l.find? q := by
  induction l with
  | nil => rfl
  | cons a l ih =>
    by_cases hq : q a = true
    · have hp := h a hq
      simp [List.filter_cons, hp, List.find?, hq, ih]
    · by_cases hp : p a = true <;>
        simp [List.filter_cons, hp, List.find?, hq, ih]

theorem getStage_upsert (db : DB) (r : StageResult) (i : Nat) (k : StageKind) :
    getStage (upsertStage db r) i k =
      if r.audio_id = i ∧ r.stage_kind = k then some r else getStage db i k := by
  unfold getStage upsertStage
  simp only [List.find?]
  by_cases h : r.audio_id = i ∧ r.stage_kind = k
  · rw [if_pos h, decide_eq_true h]
  · rw [if_neg h, decide_eq_false h]
    exact find?_filter_imp _ _
      (fun x hx => by
        simp only [decide_eq_true_eq] at hx ⊢
        intro hc
        exact h ⟨hc.1 ▸ hx.1, hc.2 ▸ hx.2⟩) _

theorem getStage_stageWrite (db : DB) (r : StageResult) (i : Nat)
    (k : StageKind) :
    getStage (applyEvent db (.stageWrite r)) i k =
      if r.audio_id = i ∧ r.stage_kind = k then some r else getStage db i k :=
  getStage_upsert db r i k

/-! ### Entity-count lemmas -/

theorem lookupCount_nil (l : String) : lookupCount [] l = 0 := rfl

theorem lookupCount_cons (k' : String) (n : Nat) (m : List (String × Nat))
    (l : String) :
    lookupCount ((k', n) :: m) l = if k' = l then n else lookupCount m l := by
  by_cases h : k' = l <;> simp [lookupCount, List.find?, h]

theorem lookupCount_bumpLabel (m : List (String × Nat)) (k l : String) :
    lookupCount (bumpLabel m k) l
      = lookupCount m l + (if k = l then 1 else 0) := by
  induction m with
  | nil =>
    by_cases h : k = l <;>
      simp [bumpLabel, lookupCount_cons, lookupCount, h]
  | cons p m ih =>
    obtain ⟨k', n⟩ := p
    by_cases h1 : k' = k
    · subst h1
      have hb : bumpLabel ((k', n) :: m) k' = (k', n + 1) :: m := by
        simp [bumpLabel]
      rw [hb, lookupCount_cons, lookupCount_cons]
      by_cases h2 : k' = l <;> simp [h2]
    · have hb : bumpLabel ((k', n) :: m) k = (k', n) :: bumpLabel m k := by
        simp [bumpLabel, h1]
      rw [hb, lookupCount_cons, lookupCount_cons]
      by_cases h2 : k' = l
      · subst h2
        have hkl : ¬ k = k' := fun hh => h1 hh.symm
        simp [hkl]
      · simp [h2, ih]

theorem lookupCount_foldl_bump (es : List Entity) (m : List (String × Nat))
    (l : String) :
    lookupCount (es.foldl (fun acc e => bumpLabel acc e.label) m) l
      = lookupCount m l + es.countP (fun e => e.label = l) := by
  induction es generalizing m with
  | nil => simp
  | cons e es ih =>
    simp only [List.foldl_cons, List.countP_cons, ih,
      lookupCount_bumpLabel]
    by_cases h : e.label = l
    · simp [h]
      omega
    · simp [h]

theorem lookupCount_countLabels (es : List Entity) (l : String) :
    lookupCount (countLabels es) l = es.countP (fun e => e.label = l) := by
  unfold countLabels
  rw [lookupCount_foldl_bump]
  simp [lookupCount]

theorem fst_mem_bumpLabel (m : List (String × Nat)) (k x : String)
    (hx : x ∈ (bumpLabel m k).map Prod.fst) :
    x ∈ m.map Prod.fst ∨ x = k := by
  induction m with
  | nil =>
    right
    simpa [bumpLabel] using hx
  | cons p m ih =>
    obtain ⟨k', n⟩ := p
    by_cases h1 : k' = k
    · subst h1
      left
      have hb : bumpLabel ((k', n) :: m) k' = (k', n + 1) :: m := by
        simp [bumpLabel]
      rw [hb] at hx
      simp only [List.map_cons, List.mem_cons] at hx
      simp only [List.map_cons, List.mem_cons]
      exact hx
    · have hb : bumpLabel ((k', n) :: m) k = (k', n) :: bumpLabel m k := by
        simp [bumpLabel, h1]
      rw [hb] at hx
      simp only [List.map_cons, List.mem_cons] at hx
      rcases hx with h | h
      · exact Or.inl (by simp only [List.map_cons, List.mem_cons]; exact Or.inl h)
      · rcases ih h with h2 | h2
        · exact Or.inl
            (by simp only [List.map_cons, List.mem_cons]; exact Or.inr h2)
        · exact Or.inr h2

theorem fst_mem_foldl_bump (es : List Entity) (m : List (String × Nat))
    (x : String)
    (hx : x ∈ (es.foldl (fun acc e => bumpLabel acc e.label) m).map Prod.fst) :
    x ∈ m.map Prod.fst ∨ x ∈ es.map (fun e => e.label) := by
  induction es generalizing m with
  | nil => exact Or.inl (by simpa using hx)
  | cons e es ih =>
    simp only [List.foldl_cons] at hx
    rcases ih _ hx with h | h
    · rcases fst_mem_bumpLabel _ _ _ h with h2 | h2
      · exact Or.inl h2
      · exact Or.inr
          (by simp only [List.map_cons, List.mem_cons]; exact Or.inl h2)
    · exact Or.inr
        (by simp only [List.map_cons, List.mem_cons]; exact Or.inr h)

theorem fst_mem_countLabels (es : List Entity) (x : String)
    (hx : x ∈ (countLabels es).map Prod.fst) :
    x ∈ es.map (fun e => e.label) := by
  rcases fst_mem_foldl_bump es [] x hx with h | h
  · simp at h
  · exact h

/-! ### Run lemmas -/

theorem getRecord_id {db : DB} {i : Nat} {a : AudioRecord}
    (h : getRecord db i = some a) : a.id = i := by
  have := List.find?_some h
  simpa using this

theorem downstreamRow_audio_id {α : Type} (i now : Nat) (k : StageKind)
    (mk : α → StagePayload) (r : Except StageError α) :
    (downstreamRow i now k mk r).audio_id = i := by
  cases r <;> rfl

theorem downstreamRow_stage_kind {α : Type} (i now : Nat) (k : StageKind)
    (mk : α → StagePayload) (r : Except StageError α) :
    (downstreamRow i now k mk r).stage_kind = k := by
  cases r <;> rfl

theorem runEvents_error (stages : Stages) (now : Nat) (a : AudioRecord)
    (err : StageError) (ht : stages.transcription a = .error err) :
    runEvents stages now a =
      [.recordWrite a.id .processing none none,
       .stageWrite ⟨a.id, .transcription, .failed, none, some err.message, now⟩,
       .recordWrite a.id .failed
         (some ("transcription: " ++ err.message)) (some now)] := by
  unfold runEvents
  rw [ht]

theorem runEvents_ok (stages : Stages) (now : Nat) (a : AudioRecord)
    (t : Transcript) (ht : stages.transcription a = .ok t) :
    runEvents stages now a =
      [.recordWrite a.id .processing none none,
       .stageWrite ⟨a.id, .transcription, .succeeded,
         some (.transcript t), none, now⟩,
       .stageWrite (downstreamRow a.id now .sentiment StagePayload.sentiment
         (stages.sentiment t.full_text (t.segments.getD []))),
       .stageWrite (downstreamRow a.id now .entity StagePayload.entities
         (stages.entity t.full_text)),
       .stageWrite (downstreamRow a.id now .summary StagePayload.summary
         (stages.summary t.full_text (t.segments.getD []))),
       if failureParts stages t = [] then
         .recordWrite a.id .completed none (some now)
       else
         .recordWrite a.id .failed
           (some (String.intercalate "; " (failureParts stages t)))
           (some now)] := by
  unfold runEvents
  rw [ht]

theorem run_error_final (stages : Stages) (now : Nat) (db : DB) (i : Nat)
    (a : AudioRecord) (err : StageError)
    (hrec : getRecord db i = some a)
    (ht : stages.transcription a = .error err) :
    getRecord (applyEvents db (runEvents stages now a)) i
      = some { a with
          status := .failed
          error_message := some ("transcription: " ++ err.message)
          processed_at := some now } ∧
    getStage (applyEvents db (runEvents stages now a)) i .transcription
      = some ⟨a.id, .transcription, .failed, none, some err.message, now⟩ ∧
    (∀ k, k ≠ .transcription →
      getStage (applyEvents db (runEvents stages now a)) i k
        = getStage db i k) := by
  have ha : a.id = i := getRecord_id hrec
  rw [runEvents_error stages now a err ht]
  simp only [applyEvents_cons, applyEvents_nil]
  refine ⟨?_, ?_, ?_⟩
  · simp [getRecord_recordWrite, getRecord_stageWrite, hrec, ha]
  · simp [getStage_recordWrite, getStage_stageWrite, ha]
  · intro k hk
    have hk' : ¬ (StageKind.transcription = k) := fun h => hk h.symm
    simp [getStage_recordWrite, getStage_stageWrite, ha, hk']

theorem run_ok_final (stages : Stages) (now : Nat) (db : DB) (i : Nat)
    (a : AudioRecord) (t : Transcript)
    (hrec : getRecord db i = some a)
    (ht : stages.transcription a = .ok t) :
    getRecord (applyEvents db (runEvents stages now a)) i
      = some { a with
          status := if failureParts stages t = [] then .completed else .failed,
          error_message := if failureParts stages t = [] then none
            else some (String.intercalate "; " (failureParts stages t)),
          processed_at := some now } ∧
    getStage (applyEvents db (runEvents stages now a)) i .transcription
      = some ⟨a.id, .transcription, .succeeded,
          some (.transcript t), none, now⟩ ∧
    getStage (applyEvents db (runEvents stages now a)) i .sentiment
      = some (downstreamRow a.id now .sentiment StagePayload.sentiment
          (stages.sentiment t.full_text (t.segments.getD []))) ∧
    getStage (applyEvents db (runEvents stages now a)) i .entity
      = some (downstreamRow a.id now .entity StagePayload.entities
          (stages.entity t.full_text)) ∧
    getStage (applyEvents db (runEvents stages now a)) i .summary
      = some (downstreamRow a.id now .summary StagePayload.summary
          (stages.summary t.full_text (t.segments.getD []))) := by
  have ha : a.id = i := getRecord_id hrec
  rw [runEvents_ok stages now a t ht]
  by_cases hf : failureParts stages t = [] <;>
    simp only [hf, if_true, if_false, ite_true, ite_false] <;>
    simp only [applyEvents_cons, applyEvents_nil] <;>
    refine ⟨?_, ?_, ?_, ?_, ?_⟩ <;>
    simp [getRecord_recordWrite, getRecord_stageWrite, getStage_recordWrite,
      getStage_stageWrite, downstreamRow_audio_id, downstreamRow_stage_kind,
      hrec, ha]

theorem failureParts_eq_nil (stages : Stages) (t : Transcript) :
    failureParts stages t = [] ↔
      (∃ s, stages.sentiment t.full_text (t.segments.getD []) = .ok s) ∧
      (∃ ents, stages.entity t.full_text = .ok ents) ∧
      (∃ su, stages.summary t.full_text (t.segments.getD []) = .ok su) := by
  unfold failureParts
  cases hs : stages.sentiment t.full_text (t.segments.getD []) <;>
    cases he : stages.entity t.full_text <;>
    cases hsu : stages.summary t.full_text (t.segments.getD []) <;>
    simp [stagePart, hs, he, hsu]

/-! ### Claim theorems (orchestrator) -/

/-- C1: when the Transcription stage fails, the run creates no Sentiment,
Entity, or Summary StageResult (the only stage write is the transcription
one, and the downstream slots are untouched), records
StageResult(transcription, failed), and ends the AudioRecord with
status=failed and error_message taken from the transcription stage's
error. -/
theorem transcription_failure_fail_fast (stages : Stages) (now : Nat)
    (db : DB) (i : Nat) (a : AudioRecord) (err : StageError)
    (hrec : getRecord db i = some a)
    (ht : stages.transcription a = .error err) :
    Run stages now db i = .ok (applyEvents db (runEvents stages now a)) ∧
    (∀ r, WriteEvent.stageWrite r ∈ runEvents stages now a →
      r.stage_kind = .transcription) ∧
    getStage (applyEvents db (runEvents stages now a)) i .sentiment
      = getStage db i .sentiment ∧
    getStage (applyEvents db (runEvents stages now a)) i .entity
      = getStage db i .entity ∧
    getStage (applyEvents db (runEvents stages now a)) i .summary
      = getStage db i .summary ∧
    getStage (applyEvents db (runEvents stages now a)) i .transcription
      = some ⟨a.id, .transcription, .failed, none, some err.message, now⟩ ∧
    getRecord (applyEvents db (runEvents stages now a)) i
      = some { a with
          status := .failed
          error_message := some ("transcription: " ++ err.message)
          processed_at := some now } := by
  obtain ⟨h1, h2, h3⟩ := run_error_final stages now db i a err hrec ht
  refine ⟨by simp [Run, hrec], ?_, h3 _ (by decide), h3 _ (by decide),
    h3 _ (by decide), h2, h1⟩
  intro r hr
  rw [runEvents_error stages now a err ht] at hr
  simp only [List.mem_cons, List.not_mem_nil, or_false] at hr
  rcases hr with h | h | h
  · cases h
  · cases h
    rfl
  · cases h

/-- Concrete record, transcript, and stage environments used by the
orchestrator witnesses. -/
def recordW2 : AudioRecord := createAudioRecord 1 "a.wav" "call_001.wav" 10 5

/-- Concrete entity list used by the witnesses. -/
def entityListW : List Entity :=
  [⟨"John Smith", "PERSON", none, none, none⟩,
   ⟨"Acme", "ORG", none, none, none⟩,
   ⟨"Jane Doe", "PERSON", none, none, none⟩]

/-- Concrete transcript for the witnesses. -/
def transcriptW : Transcript :=
  { full_text := "The quick brown fox"
    language := some "en"
    segments := none
    word_count := some 4
    processing_time_seconds := none }

/-- Concrete summary payload for the witnesses. -/
def summaryW : Summary :=
  { summary := "Customer called about an order."
    key_phrases := ["order"]
    action_items := none
    topics := none }

/-- Stage environment whose transcription fails. -/
def tFailStages : Stages :=
  { transcription := fun _ => .error (.timeoutError "model timeout")
    sentiment := fun _ _ => .ok neutralSentiment
    entity := fun _ => .ok (mkEntities entityListW)
    summary := fun _ _ => .ok summaryW }

theorem transcription_failure_fail_fast_witness :
    getRecord (applyEvents ⟨[recordW2], []⟩ (runEvents tFailStages 9 recordW2)) 1
      = some { recordW2 with
          status := .failed
          error_message := some ("transcription: "
            ++ StageError.message (.timeoutError "model timeout"))
          processed_at := some 9 } :=
  (transcription_failure_fail_fast tFailStages 9 ⟨[recordW2], []⟩ 1 recordW2
    (.timeoutError "model timeout") rfl rfl).2.2.2.2.2.2

/-- C2: when Transcription succeeds, each downstream stage's StageResult
is persisted regardless of its own outcome; in the scenario where
Sentiment fails while Entity and Summary succeed, the AudioRecord ends
failed, yet GetFullAnalysis still returns non-null transcript, entities,
and summary, with the sentiment field absent. -/
theorem downstream_persisted_partial_failure (stages : Stages) (now : Nat)
    (db : DB) (i : Nat) (a : AudioRecord) (t : Transcript)
    (hrec : getRecord db i = some a)
    (ht : stages.transcription a = .ok t) :
    Run stages now db i = .ok (applyEvents db (runEvents stages now a)) ∧
    getStage (applyEvents db (runEvents stages now a)) i .sentiment
      = some (downstreamRow a.id now .sentiment StagePayload.sentiment
          (stages.sentiment t.full_text (t.segments.getD []))) ∧
    getStage (applyEvents db (runEvents stages now a)) i .entity
      = some (downstreamRow a.id now .entity StagePayload.entities
          (stages.entity t.full_text)) ∧
    getStage (applyEvents db (runEvents stages now a)) i .summary
      = some (downstreamRow a.id now .summary StagePayload.summary
          (stages.summary t.full_text (t.segments.getD []))) ∧
    (∀ serr ents summ,
      stages.sentiment t.full_text (t.segments.getD []) = .error serr →
      stages.entity t.full_text = .ok ents →
      stages.summary t.full_text (t.segments.getD []) = .ok summ →
      (∃ a', getRecord (applyEvents db (runEvents stages now a)) i = some a' ∧
        a'.status = .failed) ∧
      (∃ v, GetFullAnalysis (applyEvents db (runEvents stages now a)) i
          = .ok v ∧
        v.transcript = some t ∧ v.entities = some ents ∧
        v.summary = some summ ∧ v.sentiment = none)) := by
  obtain ⟨hR, hT, hS, hE, hSu⟩ := run_ok_final stages now db i a t hrec ht
  refine ⟨by simp [Run, hrec], hS, hE, hSu, ?_⟩
  intro serr ents summ hs he hsu
  have hf : failureParts stages t = ["sentiment: " ++ serr.message] := by
    simp [failureParts, hs, he, hsu, stagePart, StageKind.name]
  have hfne : failureParts stages t ≠ [] := by simp [hf]
  rw [if_neg hfne, if_neg hfne] at hR
  refine ⟨⟨_, hR, rfl⟩, ?_⟩
  have hG : GetFullAnalysis (applyEvents db (runEvents stages now a)) i
      = .ok { audio := { a with
                status := .failed
                error_message := some
                  (String.intercalate "; " (failureParts stages t))
                processed_at := some now }
              transcript := stageTranscript
                (applyEvents db (runEvents stages now a)) i
              sentiment := stageSentiment
                (applyEvents db (runEvents stages now a)) i
              entities := stageEntities
                (applyEvents db (runEvents stages now a)) i
              summary := stageSummary
                (applyEvents db (runEvents stages now a)) i
              processing_complete := false } := by
    unfold GetFullAnalysis
    rw [hR]
    simp
  refine ⟨_, hG, ?_, ?_, ?_, ?_⟩
  · simp only []
    simp [stageTranscript, hT]
  · simp only []
    simp [stageEntities, hE, he, downstreamRow]
  · simp only []
    simp [stageSummary, hSu, hsu, downstreamRow]
  · simp only []
    simp [stageSentiment, hS, hs, downstreamRow]

/-- Stage environment where only sentiment fails. -/
def sFailStages : Stages :=
  { transcription := fun _ => .ok transcriptW
    sentiment := fun _ _ => .error (.modelError "sentiment backend down")
    entity := fun _ => .ok (mkEntities entityListW)
    summary := fun _ _ => .ok summaryW }

theorem downstream_persisted_partial_failure_witness :
    ∃ v, GetFullAnalysis
        (applyEvents ⟨[recordW2], []⟩ (runEvents sFailStages 9 recordW2)) 1
        = .ok v ∧
      v.transcript = some transcriptW ∧
      v.entities = some (mkEntities entityListW) ∧
      v.summary = some summaryW ∧ v.sentiment = none :=
  ((downstream_persisted_partial_failure sFailStages 9 ⟨[recordW2], []⟩ 1
      recordW2 transcriptW (by rfl) (by rfl)).2.2.2.2
    (.modelError "sentiment backend down") (mkEntities entityListW) summaryW
    (by rfl) (by rfl) (by rfl)).2

/-- C3: the final status is completed iff all four stages succeeded; if a
downstream stage failed the final status is failed with an error_message
joining a part naming each failed stage; processed_at is set to the
completion time in both the success and the failure case. -/
theorem final_status_aggregation (stages : Stages) (now : Nat) (db : DB)
    (i : Nat) (a : AudioRecord) (hrec : getRecord db i = some a) :
    ∃ a', getRecord (applyEvents db (runEvents stages now a)) i = some a' ∧
      a'.processed_at = some now ∧
      (a'.status = .completed ∨ a'.status = .failed) ∧
      (a'.status = .completed ↔
        (∃ t, stages.transcription a = .ok t ∧
          (∃ s, stages.sentiment t.full_text (t.segments.getD []) = .ok s) ∧
          (∃ ents, stages.entity t.full_text = .ok ents) ∧
          (∃ su, stages.summary t.full_text (t.segments.getD []) = .ok su))) ∧
      (∀ t, stages.transcription a = .ok t → failureParts stages t ≠ [] →
        a'.status = .failed ∧
        a'.error_message
          = some (String.intercalate "; " (failureParts stages t)) ∧
        (∀ e, stages.sentiment t.full_text (t.segments.getD []) = .error e →
          ("sentiment: " ++ e.message) ∈ failureParts stages t) ∧
        (∀ e, stages.entity t.full_text = .error e →
          ("entity: " ++ e.message) ∈ failureParts stages t) ∧
        (∀ e, stages.summary t.full_text (t.segments.getD []) = .error e →
          ("summary: " ++ e.message) ∈ failureParts stages t)) := by
  cases htr : stages.transcription a with
  | error err =>
    obtain ⟨h1, -, -⟩ := run_error_final stages now db i a err hrec htr
    refine ⟨_, h1, rfl, Or.inr rfl, ?_, ?_⟩
    · simp
    · intro t h
      cases h
  | ok t =>
    obtain ⟨h1, -, -, -, -⟩ := run_ok_final stages now db i a t hrec htr
    by_cases hfp : failureParts stages t = []
    · rw [if_pos hfp, if_pos hfp] at h1
      refine ⟨_, h1, rfl, Or.inl rfl, ?_, ?_⟩
      · simp only [true_iff]
        obtain ⟨hs, he, hsu⟩ := (failureParts_eq_nil stages t).mp hfp
        exact ⟨t, rfl, hs, he, hsu⟩
      · intro t' ht' hfne
        cases ht'
        exact absurd hfp hfne
    · rw [if_neg hfp, if_neg hfp] at h1
      refine ⟨_, h1, rfl, Or.inr rfl, ?_, ?_⟩
      · constructor
        · intro h
          cases h
        · rintro ⟨t', ht', hs, he, hsu⟩
          cases ht'
          exact (hfp ((failureParts_eq_nil stages t).mpr ⟨hs, he, hsu⟩)).elim
      · intro t' ht' hfne
        cases ht'
        refine ⟨rfl, rfl, ?_, ?_, ?_⟩
        · intro e he
          simp [failureParts, stagePart, he, StageKind.name,
            List.reduceOption_mem_iff]
        · intro e he
          simp [failureParts, stagePart, he, StageKind.name,
            List.reduceOption_mem_iff]
        · intro e he
          simp [failureParts, stagePart, he, StageKind.name,
            List.reduceOption_mem_iff]

theorem final_status_aggregation_witness :
    ∃ a', getRecord
        (applyEvents ⟨[recordW2], []⟩ (runEvents sFailStages 9 recordW2)) 1
        = some a' ∧
      a'.processed_at = some 9 ∧
      (a'.status = .completed ∨ a'.status = .failed) := by
  obtain ⟨a', h1, h2, h3, -, -⟩ :=
    final_status_aggregation sFailStages 9 ⟨[recordW2], []⟩ 1 recordW2 rfl
  exact ⟨a', h1, h2, h3⟩

/-! ### Record-state invariant (C4) -/

/-- The AudioRecord state invariant of the spec (§3, §8): the status is
one of the four enum values, processed_at is non-null iff the status is
terminal, and error_message is non-null iff the status is failed. -/
def recordWF (a : AudioRecord) : Prop :=
  (a.status = .pending ∨ a.status = .processing ∨
    a.status = .completed ∨ a.status = .failed) ∧
  (a.processed_at ≠ none ↔ (a.status = .completed ∨ a.status = .failed)) ∧
  (a.error_message ≠ none ↔ a.status = .failed)

/-- All stored AudioRecords satisfy the state invariant. -/
def dbWF (db : DB) : Prop := ∀ a ∈ db.records, recordWF a

/-- A write event whose record fields respect the state invariant. -/
def eventWF : WriteEvent → Prop
  | .stageWrite _ => True
  | .recordWrite _ st em pa =>
      (em ≠ none ↔ st = .failed) ∧
      (pa ≠ none ↔ (st = .completed ∨ st = .failed))

theorem applyEvent_WF {db : DB} {e : WriteEvent} (he : eventWF e)
    (h : dbWF db) : dbWF (applyEvent db e) := by
  cases e with
  | stageWrite r => exact fun a ha => h a ha
  | recordWrite j st em pa =>
    intro a' ha'
    simp only [applyEvent, List.mem_map] at ha'
    obtain ⟨a, ha, rfl⟩ := ha'
    by_cases hj : a.id = j
    · simp only [if_pos hj]
      obtain ⟨he1, he2⟩ := he
      exact ⟨by cases st <;> simp, by simpa using he2, by simpa using he1⟩
    · simp only [if_neg hj]
      exact h a ha

theorem runEvents_eventWF (stages : Stages) (now : Nat) (a : AudioRecord) :
    ∀ e ∈ runEvents stages now a, eventWF e := by
  cases htr : stages.transcription a with
  | error err =>
    rw [runEvents_error stages now a err htr]
    intro e he
    simp only [List.mem_cons, List.not_mem_nil, or_false] at he
    rcases he with rfl | rfl | rfl <;> simp [eventWF]
  | ok t =>
    rw [runEvents_ok stages now a t htr]
    intro e he
    simp only [List.mem_cons, List.not_mem_nil, or_false] at he
    rcases he with rfl | rfl | rfl | rfl | rfl | rfl
    · simp [eventWF]
    · simp [eventWF]
    · simp [eventWF]
    · simp [eventWF]
    · simp [eventWF]
    · by_cases hf : failureParts stages t = [] <;> simp [hf, eventWF]

theorem applyEvents_prefix_WF {es : List WriteEvent}
    (hall : ∀ e ∈ es, eventWF e) :
    ∀ pre, pre <+: es → ∀ db, dbWF db → dbWF (applyEvents db pre) := by
  induction es with
  | nil =>
    intro pre hpre db h
    rw [List.prefix_nil.mp hpre]
    exact h
  | cons e es ih =>
    intro pre hpre db h
    cases pre with
    | nil => exact h
    | cons p pre' =>
      obtain ⟨rfl, hpre'⟩ := List.cons_prefix_cons.mp hpre
      rw [applyEvents_cons]
      exact ih (fun x hx => hall x (List.mem_cons_of_mem _ hx)) pre' hpre' _
        (applyEvent_WF (hall _ (List.mem_cons_self _ _)) h)

/-- C4: every reachable AudioRecord state has a status in the four-value
enum, processed_at non-null iff the status is terminal, and error_message
non-null iff failed; record creation establishes the invariant and every
prefix of an orchestrator run's writes preserves it. -/
theorem audio_record_invariant :
    (∀ id fn ofn sz now,
      recordWF (createAudioRecord id fn ofn sz now)) ∧
    (∀ a : AudioRecord,
      a.status = .pending ∨ a.status = .processing ∨
        a.status = .completed ∨ a.status = .failed) ∧
    (∀ stages now a pre, pre <+: runEvents stages now a →
      ∀ db, dbWF db → dbWF (applyEvents db pre)) := by
  refine ⟨?_, ?_, ?_⟩
  · intro id fn ofn sz now
    simp [createAudioRecord, recordWF]
  · intro a
    cases h : a.status <;> simp
  · intro stages now a pre hpre db h
    exact applyEvents_prefix_WF (runEvents_eventWF stages now a) pre hpre db h

theorem audio_record_invariant_witness :
    dbWF (applyEvents ⟨[recordW2], []⟩ (runEvents sFailStages 9 recordW2)) := by
  apply audio_record_invariant.2.2 sFailStages 9 recordW2 _ (List.prefix_refl _)
  intro a ha
  simp only [List.mem_singleton] at ha
  subst ha
  simp [recordW2, createAudioRecord, recordWF]

/-! ### Terminal-write ordering (C5) -/

/-- Whether a status is terminal (completed or failed). -/
def AudioStatus.isTerminal : AudioStatus → Bool
  | .completed => true
  | .failed => true
  | _ => false

/-- Whether a write moves an AudioRecord to a terminal status. -/
def isTerminalWrite : WriteEvent → Bool
  | .recordWrite _ st _ _ => st.isTerminal
  | .stageWrite _ => false

theorem prefix_cases {α : Type} {l : List α} {a : α} {L : List α}
    (h : l <+: a :: L) : l = [] ∨ ∃ s, l = a :: s ∧ s <+: L := by
  cases l with
  | nil => exact Or.inl rfl
  | cons x xs =>
    obtain ⟨hx, hs⟩ := List.cons_prefix_cons.mp h
    subst hx
    exact Or.inr ⟨xs, rfl, hs⟩

theorem getRecord_after_processing (db : DB) (i : Nat) (a : AudioRecord)
    (hrec : getRecord db i = some a) (ha : a.id = i) :
    getRecord (applyEvent db (.recordWrite a.id .processing none none)) i
      = some { a with
          status := .processing
          error_message := none
          processed_at := none } := by
  simp [getRecord_recordWrite, hrec, ha]

/-- C5: within one run, the write that moves the AudioRecord to a terminal
status is the last write, ordered after every StageResult write; hence no
state reachable inside the run shows status=completed while one of the
run's StageResults is missing. -/
theorem terminal_status_write_last (stages : Stages) (now : Nat) (db : DB)
    (i : Nat) (a : AudioRecord) (hrec : getRecord db i = some a) :
    (∃ es term, runEvents stages now a = es ++ [term] ∧
      isTerminalWrite term = true ∧
      ∀ e ∈ es, isTerminalWrite e = false) ∧
    (∀ pre, pre <+: runEvents stages now a → pre ≠ [] →
      ∀ a', getRecord (applyEvents db pre) i = some a' →
        a'.status = .completed →
        ((getStage (applyEvents db pre) i .transcription).isSome ∧
         (getStage (applyEvents db pre) i .sentiment).isSome ∧
         (getStage (applyEvents db pre) i .entity).isSome ∧
         (getStage (applyEvents db pre) i .summary).isSome)) := by
  have ha : a.id = i := getRecord_id hrec
  constructor
  · cases htr : stages.transcription a with
    | error err =>
      rw [runEvents_error stages now a err htr]
      refine ⟨[_, _], _, rfl, by simp [isTerminalWrite, AudioStatus.isTerminal], ?_⟩
      intro e he
      simp only [List.mem_cons, List.not_mem_nil, or_false] at he
      rcases he with rfl | rfl <;> simp [isTerminalWrite, AudioStatus.isTerminal]
    | ok t =>
      rw [runEvents_ok stages now a t htr]
      refine ⟨[_, _, _, _, _], _, rfl, ?_, ?_⟩
      · by_cases hf : failureParts stages t = [] <;>
          simp [hf, isTerminalWrite, AudioStatus.isTerminal]
      · intro e he
        simp only [List.mem_cons, List.not_mem_nil, or_false] at he
        rcases he with rfl | rfl | rfl | rfl | rfl <;>
          simp [isTerminalWrite, AudioStatus.isTerminal]
  · intro pre hpre hne a' ha' hsta
    cases htr : stages.transcription a with
    | error err =>
      rw [runEvents_error stages now a err htr] at hpre
      rcases prefix_cases hpre with rfl | ⟨s1, rfl, h1⟩
      · exact absurd rfl hne
      rcases prefix_cases h1 with rfl | ⟨s2, rfl, h2⟩
      · rw [applyEvents_cons, applyEvents_nil,
          getRecord_after_processing db i a hrec ha] at ha'
        injection ha' with h
        rw [← h] at hsta
        simp at hsta
      rcases prefix_cases h2 with rfl | ⟨s3, rfl, h3⟩
      · rw [applyEvents_cons, applyEvents_cons, applyEvents_nil,
          getRecord_stageWrite,
          getRecord_after_processing db i a hrec ha] at ha'
        injection ha' with h
        rw [← h] at hsta
        simp at hsta
      rw [List.prefix_nil.mp h3]
      rw [List.prefix_nil.mp h3] at ha'
      have hfin := (run_error_final stages now db i a err hrec htr).1
      rw [runEvents_error stages now a err htr] at hfin
      rw [hfin] at ha'
      injection ha' with h
      rw [← h] at hsta
      simp at hsta
    | ok t =>
      have hfin := run_ok_final stages now db i a t hrec htr
      rw [runEvents_ok stages now a t htr] at hfin
      rw [runEvents_ok stages now a t htr] at hpre
      rcases prefix_cases hpre with rfl | ⟨s1, rfl, h1⟩
      · exact absurd rfl hne
      rcases prefix_cases h1 with rfl | ⟨s2, rfl, h2⟩
      · rw [applyEvents_cons, applyEvents_nil,
          getRecord_after_processing db i a hrec ha] at ha'
        injection ha' with h
        rw [← h] at hsta
        simp at hsta
      rcases prefix_cases h2 with rfl | ⟨s3, rfl, h3⟩
      · rw [applyEvents_cons, applyEvents_cons, applyEvents_nil,
          getRecord_stageWrite,
          getRecord_after_processing db i a hrec ha] at ha'
        injection ha' with h
        rw [← h] at hsta
        simp at hsta
      rcases prefix_cases h3 with rfl | ⟨s4, rfl, h4⟩
      · rw [applyEvents_cons, applyEvents_cons, applyEvents_cons,
          applyEvents_nil, getRecord_stageWrite, getRecord_stageWrite,
          getRecord_after_processing db i a hrec ha] at ha'
        injection ha' with h
        rw [← h] at hsta
        simp at hsta
      rcases prefix_cases h4 with rfl | ⟨s5, rfl, h5⟩
      · rw [applyEvents_cons, applyEvents_cons, applyEvents_cons,
          applyEvents_cons, applyEvents_nil, getRecord_stageWrite,
          getRecord_stageWrite, getRecord_stageWrite,
          getRecord_after_processing db i a hrec ha] at ha'
        injection ha' with h
        rw [← h] at hsta
        simp at hsta
      rcases prefix_cases h5 with rfl | ⟨s6, rfl, h6⟩
      · rw [applyEvents_cons, applyEvents_cons, applyEvents_cons,
          applyEvents_cons, applyEvents_cons, applyEvents_nil,
          getRecord_stageWrite, getRecord_stageWrite, getRecord_stageWrite,
          getRecord_stageWrite,
          getRecord_after_processing db i a hrec ha] at ha'
        injection ha' with h
        rw [← h] at hsta
        simp at hsta
      rw [List.prefix_nil.mp h6]
      obtain ⟨-, hT, hS, hE, hSu⟩ := hfin
      exact ⟨by rw [hT]; rfl, by rw [hS]; rfl, by rw [hE]; rfl,
        by rw [hSu]; rfl⟩

/-- Stage environment where all four stages succeed. -/
def allOkStages : Stages :=
  { transcription := fun _ => .ok transcriptW
    sentiment := fun _ _ => .ok neutralSentiment
    entity := fun _ => .ok (mkEntities entityListW)
    summary := fun _ _ => .ok summaryW }

theorem terminal_status_write_last_witness :
    (getStage (applyEvents ⟨[recordW2], []⟩
        (runEvents allOkStages 9 recordW2)) 1 .transcription).isSome ∧
    (getStage (applyEvents ⟨[recordW2], []⟩
        (runEvents allOkStages 9 recordW2)) 1 .sentiment).isSome ∧
    (getStage (applyEvents ⟨[recordW2], []⟩
        (runEvents allOkStages 9 recordW2)) 1 .entity).isSome ∧
    (getStage (applyEvents ⟨[recordW2], []⟩
        (runEvents allOkStages 9 recordW2)) 1 .summary).isSome :=
  (terminal_status_write_last allOkStages 9 ⟨[recordW2], []⟩ 1 recordW2 rfl).2
    (runEvents allOkStages 9 recordW2) (List.prefix_refl _) (by decide)
    { recordW2 with
        status := .completed
        error_message := none
        processed_at := some 9 }
    (by decide) (by decide)

/-- C7: Sentiment.Execute on empty text returns neutral with confidence 0
rather than an error; and when Transcription returns full_text="", the
Sentiment, Entity, and Summary stages all return neutral/empty outputs
without error, and the run still ends with status=completed. -/
theorem empty_text_edge_case
    (tModel : AudioRecord → Except StageError Transcript)
    (sModel : String → List TranscriptSegment → Except StageError Sentiment)
    (eModel : String → Except StageError (List Entity)) (minLen : Nat)
    (suModel : String → List TranscriptSegment → Except StageError Summary)
    (now : Nat) (db : DB) (i : Nat) (a : AudioRecord) (t : Transcript)
    (hmin : 0 < minLen)
    (hrec : getRecord db i = some a)
    (ht : tModel a = .ok t) (htext : t.full_text = "") :
    (∀ model segs, sentimentExecute model "" segs = .ok neutralSentiment) ∧
    neutralSentiment.overall_sentiment = .neutral ∧
    neutralSentiment.confidence = 0 ∧
    (mkStages tModel sModel eModel minLen suModel).sentiment t.full_text
        (t.segments.getD []) = .ok neutralSentiment ∧
    (mkStages tModel sModel eModel minLen suModel).entity t.full_text
      = .ok (mkEntities []) ∧
    (mkStages tModel sModel eModel minLen suModel).summary t.full_text
        (t.segments.getD [])
      = .ok { summary := "", key_phrases := [], action_items := none,
              topics := none } ∧
    getRecord (applyEvents db
        (runEvents (mkStages tModel sModel eModel minLen suModel) now a)) i
      = some { a with
          status := .completed
          error_message := none
          processed_at := some now } := by
  have hs : (mkStages tModel sModel eModel minLen suModel).sentiment
      t.full_text (t.segments.getD []) = .ok neutralSentiment := by
    simp [mkStages, sentimentExecute, htext]
  have he : (mkStages tModel sModel eModel minLen suModel).entity t.full_text
      = .ok (mkEntities []) := by
    simp [mkStages, entityExecute, htext]
  have hsu : (mkStages tModel sModel eModel minLen suModel).summary
      t.full_text (t.segments.getD [])
      = .ok { summary := "", key_phrases := [], action_items := none,
              topics := none } := by
    simp [mkStages, summaryExecute, htext, hmin]
  have hfp : failureParts (mkStages tModel sModel eModel minLen suModel) t
      = [] := by
    simp [failureParts, hs, he, hsu, stagePart]
  obtain ⟨h1, -, -, -, -⟩ := run_ok_final
    (mkStages tModel sModel eModel minLen suModel) now db i a t hrec ht
  rw [if_pos hfp, if_pos hfp] at h1
  exact ⟨fun model segs => by simp [sentimentExecute], rfl, rfl, hs, he,
    hsu, h1⟩

/-- Transcript of an empty audio input. -/
def emptyTranscript : Transcript :=
  { full_text := ""
    language := none
    segments := none
    word_count := some 0
    processing_time_seconds := none }

/-- Transcription model returning the empty transcript. -/
def emptyTModel : AudioRecord → Except StageError Transcript :=
  fun _ => .ok emptyTranscript

/-- Sentiment model that is never consulted on empty text. -/
def downSModel : String → List TranscriptSegment → Except StageError Sentiment :=
  fun _ _ => .error (.modelError "backend down")

/-- Entity model that is never consulted on empty text. -/
def downEModel : String → Except StageError (List Entity) :=
  fun _ => .error (.modelError "backend down")

/-- Summary model that is never consulted on trivially short text. -/
def downSuModel : String → List TranscriptSegment → Except StageError Summary :=
  fun _ _ => .error (.modelError "backend down")

theorem empty_text_edge_case_witness :
    getRecord (applyEvents ⟨[recordW2], []⟩
        (runEvents (mkStages emptyTModel downSModel downEModel 20 downSuModel)
          9 recordW2)) 1
      = some { recordW2 with
          status := .completed
          error_message := none
          processed_at := some 9 } :=
  (empty_text_edge_case emptyTModel downSModel downEModel 20 downSuModel
    9 ⟨[recordW2], []⟩ 1 recordW2 emptyTranscript
    (by decide) rfl rfl rfl).2.2.2.2.2.2

/-! ### Claim theorems (reader, entity counts, uploader) -/

theorem exceptMap_eq_ok {α β ε : Type} (f : α → β) (r : Except ε α) (b : β)
    (h : Except.map f r = .ok b) : ∃ a, r = .ok a ∧ f a = b := by
  cases r with
  | error e => simp [Except.map] at h
  | ok a =>
    simp [Except.map] at h
    exact ⟨a, rfl, h⟩

/-- C8: for every Entities payload produced by the Entity stage, the
entity_counts mapping records, for every label, the exact number of
entities in the entities sequence carrying that label, and contains no
label absent from the sequence. -/
theorem entity_counts_match_tally
    (model : String → Except StageError (List Entity)) (text : String)
    (p : Entities) (h : entityExecute model text = .ok p) :
    (∀ l, lookupCount p.entity_counts l
        = p.entities.countP (fun e => e.label = l)) ∧
    (∀ q ∈ p.entity_counts, q.1 ∈ p.entities.map (fun e => e.label)) := by
  have hp : ∃ es, p = mkEntities es := by
    unfold entityExecute at h
    split at h
    · exact ⟨[], (Except.ok.inj h).symm⟩
    · obtain ⟨es, _, hfe⟩ := exceptMap_eq_ok _ _ _ h
      exact ⟨es, hfe.symm⟩
  obtain ⟨es, rfl⟩ := hp
  constructor
  · intro l
    exact lookupCount_countLabels es l
  · intro q hq
    exact fst_mem_countLabels es q.1 (List.mem_map_of_mem Prod.fst hq)

theorem entity_counts_match_tally_witness :
    (∀ l, lookupCount (mkEntities entityListW).entity_counts l
        = (mkEntities entityListW).entities.countP (fun e => e.label = l)) ∧
    (∀ q ∈ (mkEntities entityListW).entity_counts,
        q.1 ∈ (mkEntities entityListW).entities.map (fun e => e.label)) :=
  entity_counts_match_tally (fun _ => .ok entityListW) "call text"
    (mkEntities entityListW) (by rfl)

/-- C9: the reader is idempotent and mutates nothing: GetFullAnalysis
leaves the stored state unchanged, and two calls with no intervening Run
(and no other write) return identical composite views. -/
theorem getFullAnalysis_idempotent (db : DB) (i : Nat) :
    (GetFullAnalysisOp db i).2 = db ∧
    (GetFullAnalysisOp (GetFullAnalysisOp db i).2 i).1
      = (GetFullAnalysisOp db i).1 :=
  ⟨rfl, rfl⟩

/-- C6: GetFullAnalysis succeeds whenever the AudioRecord exists, even
when some or all StageResults are absent, surfacing each absent stage as a
null field; it fails with NotFoundError exactly when the AudioRecord does
not exist. -/
theorem getFullAnalysis_partial_tolerant (db : DB) (i : Nat) :
    (getRecord db i = none → GetFullAnalysis db i = .error .notFoundError) ∧
    (GetFullAnalysis db i = .error .notFoundError → getRecord db i = none) ∧
    (∀ a, getRecord db i = some a →
      ∃ v, GetFullAnalysis db i = .ok v ∧ v.audio = a ∧
        (getStage db i .transcription = none → v.transcript = none) ∧
        (getStage db i .sentiment = none → v.sentiment = none) ∧
        (getStage db i .entity = none → v.entities = none) ∧
        (getStage db i .summary = none → v.summary = none) ∧
        (v.processing_complete = true ↔ a.status = .completed)) := by
  refine ⟨fun h => by simp [GetFullAnalysis, h], fun h => ?_, fun a ha => ?_⟩
  · unfold GetFullAnalysis at h
    cases hr : getRecord db i with
    | none => rfl
    | some a => rw [hr] at h; cases h
  · refine ⟨{ audio := a
              transcript := stageTranscript db i
              sentiment := stageSentiment db i
              entities := stageEntities db i
              summary := stageSummary db i
              processing_complete := a.status = .completed },
      by simp [GetFullAnalysis, ha], rfl, ?_, ?_, ?_, ?_, ?_⟩
    · intro h; simp [stageTranscript, h]
    · intro h; simp [stageSentiment, h]
    · intro h; simp [stageEntities, h]
    · intro h; simp [stageSummary, h]
    · simp

/-- Concrete record used to witness the reader claims. -/
def recordW : AudioRecord := createAudioRecord 1 "a.wav" "call_001.wav" 10 5

theorem getFullAnalysis_partial_tolerant_witness :
    ∃ v, GetFullAnalysis ⟨[recordW], []⟩ 1 = .ok v ∧ v.transcript = none := by
  obtain ⟨v, hv, -, ht, -, -, -, -⟩ :=
    (getFullAnalysis_partial_tolerant ⟨[recordW], []⟩ 1).2.2 recordW (by rfl)
  exact ⟨v, hv, ht rfl⟩

/-- C10: for every file whose name's final extension, lowercased, is not
one of mp3, wav, m4a, flac, ogg, the uploader's handleFile sets the error
message and returns without invoking uploadAudio or processAudio. -/
theorem handleFile_rejects_non_audio (filename : String)
    (h : fileExtension filename ∉ audioExtensions) :
    handleFile filename =
      .rejected "Please upload an audio file (MP3, WAV, M4A, FLAC, OGG)" := by
  unfold handleFile
  rw [if_pos]
  simpa using h

theorem handleFile_rejects_non_audio_witness :
    fileExtension "notes.txt" ∉ audioExtensions ∧
    handleFile "notes.txt" =
      .rejected "Please upload an audio file (MP3, WAV, M4A, FLAC, OGG)" :=
  ⟨by decide, handleFile_rejects_non_audio "notes.txt" (by decide)⟩

end SpeechPipeline
